import Mathlib

/-
Verification of the adaptive-learning module (calculateMasteryLevel,
getNextTopic, generateLearningPath, identifyLearningGaps,
calculateLearningVelocity, predictTimeToMastery) as a shallow embedding.

Modelling conventions:
* JS numbers are modelled exactly: integer counts as Nat, scores and
  averages as Rat, and quantities passing through Math.sqrt as Real.
* Math.round x is floor (x + 1/2) (JS rounds half toward +infinity);
  Math.ceil is Int.ceil.
* A JS division whose denominator is 0 yields a non-finite number
  (NaN or Infinity); where the code can produce such a value we model
  the field as an Option, with none standing for the non-finite result.
* A thrown TypeError is modelled by an Option-valued function
  returning none.
* JS objects iterated with Object.entries are modelled as association
  lists in insertion order; Array.prototype.sort is stable, so it is
  modelled by a stable insertion sort over the same comparator.
* The data model declares Attempt.total as an integer > 0; accuracy
  is modelled by total division on Rat (the theorems below always carry
  the total > 0 hypothesis where a quotient correct/total occurs).
-/

namespace AdaptiveLearning

/-- One practice/assessment event: correct and total counts and a
timestamp (modelled in days). -/
structure Attempt where
  correct : ℕ
  total : ℕ
  timestamp : ℤ
deriving DecidableEq

/-- Per-attempt accuracy, attempt.correct / attempt.total. -/
def accuracy (a : Attempt) : ℚ := (a.correct : ℚ) / (a.total : ℚ)

/-- The indexed reduce of line 21-25: running from index i, each attempt
contributes accuracy * ((index+1) / n).  The JS reduce adds terms left
to right; addition on the exact rationals is associative, so the
right-nested recursion below computes the same sum. -/
def weightedSum (n : ℚ) : ℕ → List Attempt → ℚ
  | _, [] => 0
  | i, a :: l => accuracy a * (((i : ℚ) + 1) / n) + weightedSum n (i + 1) l

/-- weightedScore of calculateMasteryLevel: the indexed reduce divided
by attempts.length (lines 21-25). -/
def weightedScore (l : List Attempt) : ℚ :=
  weightedSum (l.length : ℚ) 0 l / (l.length : ℚ)

/-- attempts.slice(-5).map(a => a.correct / a.total) (line 28). -/
def recentAccuracies (l : List Attempt) : List ℚ :=
  (l.drop (l.length - 5)).map accuracy

/-- Mean of a list of rationals (line 29). -/
def listAvg (L : List ℚ) : ℚ := L.sum / (L.length : ℚ)

/-- Population variance of a list of rationals (line 30). -/
def listVar (L : List ℚ) : ℚ :=
  (L.map (fun v => (v - listAvg L) ^ 2)).sum / (L.length : ℚ)

/-- consistency = 1 - Math.sqrt(variance) (line 31). -/
noncomputable def consistency (l : List Attempt) : ℝ :=
  1 - Real.sqrt ((listVar (recentAccuracies l) : ℚ) : ℝ)

/-- JS Math.round: floor (x + 1/2). -/
noncomputable def jsRound (x : ℝ) : ℤ := ⌊x + 1 / 2⌋

/-- JS Math.round on an exact rational. -/
def jsRoundQ (q : ℚ) : ℤ := ⌊q + 1 / 2⌋

/-- Final mastery level, line 34:
Math.round((weightedScore * 0.7 + consistency * 0.3) * 100). -/
noncomputable def masteryLevel (l : List Attempt) : ℤ :=
  jsRound ((((weightedScore l : ℚ) : ℝ) * (7 / 10) + consistency l * (3 / 10)) * 100)

/-- Status thresholds of lines 37-42. -/
def statusOf (lv : ℤ) : String :=
  if 90 ≤ lv then "mastered"
  else if 70 ≤ lv then "proficient"
  else if 50 ≤ lv then "developing"
  else if 30 ≤ lv then "struggling"
  else "needs-support"

/-- Result of calculateMasteryLevel.  The empty-input branch (lines
12-18) returns an object carrying only level, status and confidence;
the two fields absent there are modelled as Options. -/
structure MasteryResult where
  level : ℤ
  status : String
  confidence : ℝ
  totalAttempts : Option ℕ
  recentAccuracy : Option ℚ

/-- calculateMasteryLevel (lines 11-51). -/
noncomputable def calculateMasteryLevel (attempts : List Attempt) : MasteryResult :=
  if attempts.isEmpty then
    { level := 0, status := "not-started", confidence := 0,
      totalAttempts := none, recentAccuracy := none }
  else
    { level := masteryLevel attempts,
      status := statusOf (masteryLevel attempts),
      confidence := consistency attempts,
      totalAttempts := some attempts.length,
      recentAccuracy := some (listAvg (recentAccuracies attempts)) }

/-- Per-topic progress record: ordered attempt sequence plus cumulative
minutes (data.timeSpent || 0 is modelled by a plain Nat). -/
structure TopicProgress where
  attempts : List Attempt
  timeSpent : ℕ
deriving DecidableEq

/-- Curriculum-graph node.  prerequisites, difficulty and importance may
be absent in the loosely-typed source records, hence the Options; the
code reads them through the JS defaulting idiom x || default. -/
structure TopicData where
  prerequisites : Option (List String)
  difficulty : Option String
  importance : Option ℚ
deriving DecidableEq

/-- First-match association-list lookup, modelling JS property access
obj[key] (object keys are unique, so first match is the match). -/
def alookup {α : Type} : List (String × α) → String → Option α
  | [], _ => none
  | (k, v) :: t, key => if k = key then some v else alookup t key

/-- JS defaulting data.difficulty || "medium": undefined and the empty
string are both falsy. -/
def difficultyOrDefault (d : Option String) : String :=
  match d with
  | some s => if s = "" then "medium" else s
  | none => "medium"

/-- JS defaulting data.importance || 5: undefined and 0 are falsy. -/
def importanceOrDefault (i : Option ℚ) : ℚ :=
  match i with
  | some q => if q = 0 then 5 else q
  | none => 5

/-- Recommendation produced by getNextTopic (lines 81-87). -/
structure Recommendation where
  topic : String
  difficulty : String
  importance : ℚ
  currentMastery : ℤ
  status : String

/-- The mastered-topic set of lines 60-69: topics whose mastery level
over their full attempt history is at least 70, in entry order. -/
noncomputable def masteredTopics (progress : List (String × TopicProgress)) : List String :=
  (progress.filter fun e => decide (70 ≤ (calculateMasteryLevel e.2.attempts).level)).map Prod.fst

/-- Level and status of a topic the student may not have attempted:
the literal of lines 77-79 when the topic is absent from progress. -/
noncomputable def currentMasteryOf (progress : List (String × TopicProgress))
    (topic : String) : ℤ × String :=
  match alookup progress topic with
  | some d => ((calculateMasteryLevel d.attempts).level, (calculateMasteryLevel d.attempts).status)
  | none => (0, "not-started")

/-- The available-topic scan of lines 72-89: for each graph entry whose
prerequisites are all mastered and which is itself not mastered, build
a recommendation record. -/
noncomputable def availableTopics (progress : List (String × TopicProgress))
    (graph : List (String × TopicData)) : List Recommendation :=
  graph.filterMap fun e =>
    if (e.2.prerequisites.getD []).all (fun p => (masteredTopics progress).contains p)
        && !((masteredTopics progress).contains e.1) then
      some { topic := e.1,
             difficulty := difficultyOrDefault e.2.difficulty,
             importance := importanceOrDefault e.2.importance,
             currentMastery := (currentMasteryOf progress e.1).1,
             status := (currentMasteryOf progress e.1).2 }
    else none

/-- In-progress test of lines 94-95: 20 < currentMastery < 70. -/
def inProgress (r : Recommendation) : Bool :=
  decide (20 < r.currentMastery) && decide (r.currentMastery < 70)

/-- The comparator of lines 92-102. -/
def recCompare (a b : Recommendation) : ℚ :=
  if inProgress a && !inProgress b then -1
  else if !inProgress a && inProgress b then 1
  else b.importance - a.importance

/-- Stable insertion of x after all already-placed elements h with
c h x ≤ 0; together with sortByCompare this models the stable JS
Array.prototype.sort under a consistent comparator. -/
def insertByCompare {α : Type} (c : α → α → ℚ) (x : α) : List α → List α
  | [] => [x]
  | h :: t => if c h x ≤ 0 then h :: insertByCompare c x t else x :: h :: t

/-- Stable sort by a comparator, inserting elements in original order. -/
def sortByCompare {α : Type} (c : α → α → ℚ) (l : List α) : List α :=
  l.foldl (fun acc x => insertByCompare c x acc) []

/-- getNextTopic (lines 59-105): sort the available topics and return
the first, or none (JS null) when none is available. -/
noncomputable def getNextTopic (progress : List (String × TopicProgress))
    (graph : List (String × TopicData)) : Option Recommendation :=
  (sortByCompare recCompare (availableTopics progress graph)).head?

/-- One phase of a learning path (lines 157-173). -/
structure Phase where
  phase : ℕ
  duration : ℕ
  topics : List String
  goals : List String
  activities : List String
  milestones : List String
deriving DecidableEq

/-- One day of the daily schedule (lines 182-192). -/
structure DayPlan where
  day : ℕ
  phase : ℕ
  topics : List String
  timeAllocated : ℕ
  activities : List (String × ℕ)
deriving DecidableEq

/-- A generated learning path (lines 141-145). -/
structure LearningPath where
  phases : List Phase
  estimatedDuration : ℕ
  dailySchedule : List DayPlan
deriving DecidableEq

/-- Parameters of generateLearningPath (lines 133-139), with the
defaults timeframe = 30 and dailyTimeAvailable = 30 made explicit. -/
structure PathParams where
  studentProgress : List (String × TopicProgress)
  curriculumGraph : List (String × TopicData)
  targetTopics : List String
  timeframe : ℕ
  dailyTimeAvailable : ℕ

/-- Math.ceil (a / b) on naturals. -/
def ceilDiv (a b : ℕ) : ℕ := (a + b - 1) / b

/-- Option-valued traversal: build the list of results, propagating the
first failure.  Models a JS loop that throws on the failing element. -/
def optTraverse {α β : Type} (f : α → Option β) : List α → Option (List β)
  | [] => some []
  | a :: l =>
    match f a, optTraverse f l with
    | some b, some r => some (b :: r)
    | _, _ => none

/-- The phase list of lines 154-174. -/
def buildPhases (currentTopics : List String) (timeframe topicsPerPhase phaseCount : ℕ) :
    List Phase :=
  (List.range phaseCount).map fun i =>
    let phaseTopics := (currentTopics.drop (i * topicsPerPhase)).take topicsPerPhase
    { phase := i + 1,
      duration := ceilDiv timeframe phaseCount,
      topics := phaseTopics,
      goals := phaseTopics.map (fun topic => "Master " ++ topic),
      activities := ["Watch introduction video", "Complete practice exercises",
        "Take mini-assessment", "Review and reinforce"],
      milestones := ["Complete " ++ toString phaseTopics.length ++ " topics",
        "Achieve 70% mastery", "Pass phase assessment"] }

/-- The phase index of line 179: the JS value
floor((day-1) / (timeframe/phaseCount)) equals (day-1)*phaseCount/timeframe
in exact arithmetic when phaseCount > 0, and is 0 when phaseCount = 0
(the divisor is then Infinity).  The undefined-fallback chain
phases[phase] || phases[phases.length-1] is modelled with Option; when
both lookups miss, the JS code throws a TypeError reading .topics of
undefined, modelled as none in buildDay. -/
def dayPhaseIdx (timeframe phaseCount day : ℕ) : ℕ :=
  if phaseCount = 0 then 0 else (day - 1) * phaseCount / timeframe

/-- One day of lines 178-193 (body): look up the phase, falling back to
the last phase, and build the day record. -/
def buildDay (phases : List Phase) (timeframe phaseCount dailyTimeAvailable day : ℕ) :
    Option DayPlan :=
  ((phases[dayPhaseIdx timeframe phaseCount day]?).orElse
    (fun _ => phases.getLast?)).map fun currentPhase =>
    { day := day,
      phase := dayPhaseIdx timeframe phaseCount day + 1,
      topics := currentPhase.topics,
      timeAllocated := dailyTimeAvailable,
      activities := [("Review previous lesson", 5), ("New concept learning", 15),
        ("Practice exercises", 10)] }

/-- The currentTopics selection of lines 147-149: the target topics, or
the single Topic Selector fallback with JS filter(Boolean) dropping a
missing recommendation and the falsy empty string. -/
noncomputable def pathTopics (params : PathParams) : List String :=
  if 0 < params.targetTopics.length then params.targetTopics
  else (((getNextTopic params.studentProgress params.curriculumGraph).map
    Recommendation.topic).toList).filter (fun t => t ≠ "")

/-- topicsPerPhase of line 151: Math.ceil(count/4) || 1 (0 is falsy). -/
def pathTopicsPerPhase (n : ℕ) : ℕ :=
  if ceilDiv n 4 = 0 then 1 else ceilDiv n 4

/-- phaseCount of line 152: Math.ceil(count / topicsPerPhase). -/
def pathPhaseCount (n : ℕ) : ℕ := ceilDiv n (pathTopicsPerPhase n)

/-- generateLearningPath (lines 132-198).  A thrown TypeError is
modelled by the result none. -/
noncomputable def generateLearningPath (params : PathParams) : Option LearningPath :=
  (optTraverse
    (fun d => buildDay
      (buildPhases (pathTopics params) params.timeframe
        (pathTopicsPerPhase (pathTopics params).length)
        (pathPhaseCount (pathTopics params).length))
      params.timeframe (pathPhaseCount (pathTopics params).length)
      params.dailyTimeAvailable (d + 1))
    (List.range params.timeframe)).map fun sched =>
    { phases := buildPhases (pathTopics params) params.timeframe
        (pathTopicsPerPhase (pathTopics params).length)
        (pathPhaseCount (pathTopics params).length),
      estimatedDuration := params.timeframe,
      dailySchedule := sched }

/-- A graded question inside an AssessmentResult (lines 210-224).  The
topic tag may be absent (undefined), modelled by an Option. -/
structure Question where
  topic : Option String
  isCorrect : Bool
  question : String
  studentAnswer : String
  correctAnswer : String
deriving DecidableEq

/-- An assessment batch element; results may be absent, and the code
skips an absent list via optional chaining (line 210). -/
structure AssessmentResult where
  results : Option (List Question)
deriving DecidableEq

/-- A recorded incorrect answer (lines 219-223). -/
structure ErrorRecord where
  question : String
  studentAnswer : String
  correctAnswer : String
deriving DecidableEq

/-- Aggregated per-topic performance (line 213). -/
structure TopicPerformance where
  correct : ℕ
  total : ℕ
  errors : List ErrorRecord
deriving DecidableEq

/-- JS defaulting question.topic || "general": undefined and the empty
string are both falsy (line 211). -/
def topicOrGeneral (t : Option String) : String :=
  match t with
  | some s => if s = "" then "general" else s
  | none => "general"

/-- Fold one question into the per-topic aggregation (lines 210-225).
A new topic key is appended at the end, preserving first-encounter
order exactly as JS object insertion order does. -/
def addQuestion (tp : List (String × TopicPerformance)) (q : Question) :
    List (String × TopicPerformance) :=
  let topic := topicOrGeneral q.topic
  let bump : TopicPerformance → TopicPerformance := fun p =>
    { correct := p.correct + (if q.isCorrect then 1 else 0),
      total := p.total + 1,
      errors := p.errors ++ (if q.isCorrect then [] else
        [{ question := q.question, studentAnswer := q.studentAnswer,
           correctAnswer := q.correctAnswer }]) }
  if (alookup tp topic).isSome then
    tp.map fun e => if e.1 = topic then (e.1, bump e.2) else e
  else
    tp ++ [(topic, bump { correct := 0, total := 0, errors := [] })]

/-- The aggregation loop of lines 206-226 over the whole batch. -/
def aggregate (assessmentResults : List AssessmentResult) :
    List (String × TopicPerformance) :=
  assessmentResults.foldl (fun tp r => (r.results.getD []).foldl addQuestion tp) []

/-- A reported learning gap (lines 239-247). -/
structure Gap where
  topic : String
  severity : String
  accuracy : ℤ
  totalQuestions : ℕ
  incorrectCount : ℕ
  commonErrors : List ErrorRecord
  recommendation : String
deriving DecidableEq

/-- The templated recommendation strings of lines 261-269. -/
def getRecommendation (topic : String) (accuracy : ℚ) : String :=
  if accuracy < 3 / 10 then
    "Review foundational concepts in " ++ topic ++ ". Consider one-on-one tutoring."
  else if accuracy < 1 / 2 then
    "Practice more exercises in " ++ topic ++ ". Focus on understanding core concepts."
  else
    "Continue practicing " ++ topic ++ ". You're making good progress!"

/-- The aggregate accuracy of line 231. -/
def gapAccuracy (p : TopicPerformance) : ℚ := (p.correct : ℚ) / (p.total : ℚ)

/-- The gap-construction loop of lines 229-249, in aggregation order. -/
def gapsOf (assessmentResults : List AssessmentResult) : List Gap :=
  (aggregate assessmentResults).filterMap fun e =>
    if gapAccuracy e.2 < 7 / 10 then
      some { topic := e.1,
             severity := if gapAccuracy e.2 < 3 / 10 then "critical"
               else if gapAccuracy e.2 < 1 / 2 then "high" else "medium",
             accuracy := jsRoundQ (gapAccuracy e.2 * 100),
             totalQuestions := e.2.total,
             incorrectCount := e.2.total - e.2.correct,
             commonErrors := e.2.errors.take 3,
             recommendation := getRecommendation e.1 (gapAccuracy e.2) }
    else none

/-- severityOrder of line 252.  Gaps only ever carry one of the three
listed severities, so the final else branch is unreachable. -/
def severityOrder (s : String) : ℕ :=
  if s = "critical" then 0 else if s = "high" then 1 else 2

/-- Stable insertion by a natural-number sort key: x lands after every
earlier element whose key is less than or equal to its own. -/
def insertByKey {α : Type} (key : α → ℕ) (x : α) : List α → List α
  | [] => [x]
  | h :: t => if key h ≤ key x then h :: insertByKey key x t else x :: h :: t

/-- Stable sort by a natural-number key, modelling the stable JS
Array.prototype.sort under the comparator key a - key b (line 253). -/
def sortByKey {α : Type} (key : α → ℕ) (l : List α) : List α :=
  l.foldl (fun acc x => insertByKey key x acc) []

/-- identifyLearningGaps (lines 205-256). -/
def identifyLearningGaps (assessmentResults : List AssessmentResult) : List Gap :=
  sortByKey (fun g => severityOrder g.severity) (gapsOf assessmentResults)

/-- JS division modelled on the exact rationals: a zero denominator
produces a non-finite JS number (NaN or Infinity), modelled none. -/
def jsDiv (a b : ℚ) : Option ℚ := if b = 0 then none else some (a / b)

/-- Velocity metrics returned by calculateLearningVelocity (lines
300-306).  topicsPerWeek is an Option because the division by weeks is
unguarded in the source. -/
structure Velocity where
  topicsPerWeek : Option ℚ
  topicsStarted : ℕ
  topicsMastered : ℕ
  averageTimePerTopic : ℚ
  velocity : String

/-- The per-topic accumulation of lines 281-298: count topics with a
recent attempt, count those mastered over just the recent attempts, and
sum timeSpent over topics with recent activity.  Returns
(topicsStarted, topicsMastered, totalTimeSpent). -/
noncomputable def velocityCounts (progress : List (String × TopicProgress)) (cutoff : ℤ) :
    ℕ × ℕ × ℕ :=
  progress.foldl
    (fun s e =>
      let recents := e.2.attempts.filter fun a => decide (cutoff ≤ a.timestamp)
      if recents.isEmpty then s
      else (s.1 + 1,
            s.2.1 + (if 70 ≤ (calculateMasteryLevel recents).level then 1 else 0),
            s.2.2 + e.2.timeSpent))
    (0, 0, 0)

/-- The velocity label of line 305.  With weeks = 0 the JS quotient is
Infinity when topicsMastered > 0 (so the label is "fast") and NaN when
topicsMastered = 0 (both comparisons are false, so "slow"). -/
def velocityLabel (q : Option ℚ) (topicsMastered : ℕ) : String :=
  match q with
  | some v => if 1 < v then "fast" else if 1 / 2 < v then "steady" else "slow"
  | none => if 0 < topicsMastered then "fast" else "slow"

/-- calculateLearningVelocity (lines 277-307).  The impure new Date()
is made explicit as the parameter now; timestamps are in days, so the
cutoff is now - weeks*7. -/
noncomputable def calculateLearningVelocity (progress : List (String × TopicProgress))
    (weeks : ℕ) (now : ℤ) : Velocity :=
  let cutoff : ℤ := now - (weeks : ℤ) * 7
  let counts := velocityCounts progress cutoff
  { topicsPerWeek := jsDiv (counts.2.1 : ℚ) (weeks : ℚ),
    topicsStarted := counts.1,
    topicsMastered := counts.2.1,
    averageTimePerTopic :=
      if 0 < counts.1 then (counts.2.2 : ℚ) / (counts.1 : ℚ) else 0,
    velocity := velocityLabel (jsDiv (counts.2.1 : ℚ) (weeks : ℚ)) counts.2.1 }

/-- The current-mastery read of lines 317-319: level of the topic's
full history, or the literal 0 when the topic was never attempted. -/
noncomputable def currentLevel (progress : List (String × TopicProgress))
    (topic : String) : ℤ :=
  match alookup progress topic with
  | some d => (calculateMasteryLevel d.attempts).level
  | none => 0

/-- predictTimeToMastery (lines 316-330), taking the topicsPerWeek
field of the velocity argument (the only field the code reads) as a
finite rational.  When averageProgressPerDay is 0 the JS quotient is
Infinity and the clamp chain yields 90. -/
noncomputable def predictTimeToMastery (topic : String)
    (progress : List (String × TopicProgress)) (topicsPerWeek : ℚ) : ℤ :=
  if 70 - currentLevel progress topic ≤ 0 then 0
  else if topicsPerWeek / 7 * 10 = 0 then 90
  else max 1
    (min ⌈((70 - currentLevel progress topic : ℤ) : ℚ) / (topicsPerWeek / 7 * 10)⌉ 90)

lemma accuracy_nonneg (a : Attempt) : 0 ≤ accuracy a := by
  unfold accuracy
  positivity

lemma accuracy_le_one (a : Attempt) (h : a.correct ≤ a.total) : accuracy a ≤ 1 := by
  unfold accuracy
  rcases Nat.eq_zero_or_pos a.total with h0 | h0
  · simp [h0]
  · rw [div_le_one (by exact_mod_cast h0)]
    exact_mod_cast h

lemma accuracy_eq_one (a : Attempt) (h0 : 0 < a.total) (he : a.correct = a.total) :
    accuracy a = 1 := by
  unfold accuracy
  rw [he]
  exact div_self (by exact_mod_cast h0.ne')

lemma weightedSum_all_one (n : ℚ) (l : List Attempt) (hacc : ∀ a ∈ l, accuracy a = 1) :
    ∀ i : ℕ, weightedSum n i l =
      ((l.length : ℚ) * (2 * (i : ℚ) + (l.length : ℚ) + 1) / 2) / n := by
  induction l with
  | nil => intro i; simp [weightedSum]
  | cons a t ih =>
    intro i
    have ha := hacc a (by simp)
    have ih' := ih (fun b hb => hacc b (by simp [hb])) (i + 1)
    simp only [weightedSum, ha, ih', List.length_cons]
    push_cast
    ring

lemma weightedScore_all_one (l : List Attempt) (hne : l ≠ [])
    (hacc : ∀ a ∈ l, accuracy a = 1) :
    weightedScore l = ((l.length : ℚ) + 1) / (2 * (l.length : ℚ)) := by
  have hm : ((l.length : ℚ)) ≠ 0 :=
    Nat.cast_ne_zero.mpr (List.length_pos.mpr hne).ne'
  unfold weightedScore
  rw [weightedSum_all_one _ _ hacc 0]
  field_simp
  ring

lemma weightedSum_nonneg (n : ℚ) (hn : 0 ≤ n) (l : List Attempt)
    (hacc : ∀ a ∈ l, 0 ≤ accuracy a) : ∀ i : ℕ, 0 ≤ weightedSum n i l := by
  induction l with
  | nil => intro i; simp [weightedSum]
  | cons a t ih =>
    intro i
    have ha := hacc a (by simp)
    have ih' := ih (fun b hb => hacc b (by simp [hb])) (i + 1)
    have hw : (0 : ℚ) ≤ ((i : ℚ) + 1) / n := by positivity
    have := mul_nonneg ha hw
    simp only [weightedSum]
    linarith

lemma weightedSum_le (n : ℚ) (hn : 0 ≤ n) (l : List Attempt)
    (hacc : ∀ a ∈ l, accuracy a ≤ 1) :
    ∀ i : ℕ, weightedSum n i l ≤
      ((l.length : ℚ) * (2 * (i : ℚ) + (l.length : ℚ) + 1) / 2) / n := by
  induction l with
  | nil => intro i; simp [weightedSum]
  | cons a t ih =>
    intro i
    have ha := hacc a (by simp)
    have ih' := ih (fun b hb => hacc b (by simp [hb])) (i + 1)
    have hw : (0 : ℚ) ≤ ((i : ℚ) + 1) / n := by positivity
    have hterm : accuracy a * (((i : ℚ) + 1) / n) ≤ ((i : ℚ) + 1) / n := by
      nlinarith
    have hclosed : ((i : ℚ) + 1) / n +
        ((t.length : ℚ) * (2 * ((i : ℚ) + 1) + (t.length : ℚ) + 1) / 2) / n =
        (((a :: t).length : ℚ) * (2 * (i : ℚ) + ((a :: t).length : ℚ) + 1) / 2) / n := by
      simp only [List.length_cons]
      push_cast
      ring
    calc weightedSum n i (a :: t)
        = accuracy a * (((i : ℚ) + 1) / n) + weightedSum n (i + 1) t := by
          simp [weightedSum]
      _ ≤ ((i : ℚ) + 1) / n +
          ((t.length : ℚ) * (2 * ((i : ℚ) + 1) + (t.length : ℚ) + 1) / 2) / n := by
          push_cast at ih' ⊢
          linarith
      _ = _ := hclosed

lemma weightedScore_nonneg (l : List Attempt) (hacc : ∀ a ∈ l, 0 ≤ accuracy a) :
    0 ≤ weightedScore l := by
  unfold weightedScore
  have := weightedSum_nonneg (l.length : ℚ) (by positivity) l hacc 0
  positivity

lemma weightedScore_le_one (l : List Attempt) (hne : l ≠ [])
    (hacc : ∀ a ∈ l, accuracy a ≤ 1) : weightedScore l ≤ 1 := by
  have hm1 : (1 : ℚ) ≤ (l.length : ℚ) := by
    have h1 : 1 ≤ l.length := List.length_pos.mpr hne
    exact_mod_cast h1
  have hm : ((l.length : ℚ)) ≠ 0 := by linarith
  have h := weightedSum_le (l.length : ℚ) (by linarith) l hacc 0
  unfold weightedScore
  have hb : ((l.length : ℚ) * (2 * ((0 : ℕ) : ℚ) + (l.length : ℚ) + 1) / 2) /
      (l.length : ℚ) = ((l.length : ℚ) + 1) / 2 := by
    push_cast
    field_simp
    ring
  rw [hb] at h
  rw [div_le_one (by linarith)]
  calc weightedSum (l.length : ℚ) 0 l ≤ ((l.length : ℚ) + 1) / 2 := h
    _ ≤ (l.length : ℚ) := by linarith

lemma recentAccuracies_ne_nil (l : List Attempt) (hne : l ≠ []) :
    recentAccuracies l ≠ [] := by
  have hlen : 0 < l.length := List.length_pos.mpr hne
  have : (recentAccuracies l).length = l.length - (l.length - 5) := by
    simp [recentAccuracies]
  have hpos : 0 < (recentAccuracies l).length := by omega
  exact List.ne_nil_of_length_pos hpos

lemma mem_recentAccuracies (l : List Attempt) (v : ℚ) (hv : v ∈ recentAccuracies l) :
    ∃ a ∈ l, v = accuracy a := by
  unfold recentAccuracies at hv
  obtain ⟨a, ha, rfl⟩ := List.mem_map.mp hv
  exact ⟨a, List.drop_subset _ _ ha, rfl⟩

lemma listAvg_all_one (L : List ℚ) (hne : L ≠ []) (h : ∀ v ∈ L, v = 1) :
    listAvg L = 1 := by
  have hm : ((L.length : ℚ)) ≠ 0 :=
    Nat.cast_ne_zero.mpr (List.length_pos.mpr hne).ne'
  have hs : L.sum = (L.length : ℚ) := by
    rw [List.sum_eq_card_nsmul L 1 h]
    simp
  unfold listAvg
  rw [hs, div_self hm]

lemma listVar_all_one (L : List ℚ) (hne : L ≠ []) (h : ∀ v ∈ L, v = 1) :
    listVar L = 0 := by
  unfold listVar
  have hz : (L.map (fun v => (v - listAvg L) ^ 2)).sum = 0 := by
    apply List.sum_eq_zero
    intro x hx
    obtain ⟨v, hv, rfl⟩ := List.mem_map.mp hx
    rw [h v hv, listAvg_all_one L hne h]
    ring
  rw [hz, zero_div]

lemma listVar_nonneg (L : List ℚ) : 0 ≤ listVar L := by
  unfold listVar
  apply div_nonneg
  · apply List.sum_nonneg
    intro x hx
    obtain ⟨v, hv, rfl⟩ := List.mem_map.mp hx
    positivity
  · positivity

lemma sum_sub_sq (L : List ℚ) (μ : ℚ) :
    (L.map (fun v => (v - μ) ^ 2)).sum =
      (L.map (fun v => v ^ 2)).sum - 2 * μ * L.sum + (L.length : ℚ) * μ ^ 2 := by
  induction L with
  | nil => simp
  | cons v t ih =>
    simp only [List.map_cons, List.sum_cons, List.length_cons, ih]
    push_cast
    ring

lemma sum_sq_le_sum (L : List ℚ) (h : ∀ v ∈ L, 0 ≤ v ∧ v ≤ 1) :
    (L.map (fun v => v ^ 2)).sum ≤ L.sum := by
  induction L with
  | nil => simp
  | cons v t ih =>
    have hv := h v (by simp)
    have iht := ih (fun w hw => h w (by simp [hw]))
    simp only [List.map_cons, List.sum_cons]
    nlinarith [hv.1, hv.2]

lemma listVar_le_quarter (L : List ℚ) (hne : L ≠ []) (h : ∀ v ∈ L, 0 ≤ v ∧ v ≤ 1) :
    listVar L ≤ 1 / 4 := by
  have hmpos : (0 : ℚ) < (L.length : ℚ) := by
    exact_mod_cast List.length_pos.mpr hne
  have hm : ((L.length : ℚ)) ≠ 0 := hmpos.ne'
  set μ := listAvg L with hμ
  have hsum : L.sum = (L.length : ℚ) * μ := by
    rw [hμ]
    unfold listAvg
    field_simp
  have hsq := sum_sq_le_sum L h
  unfold listVar
  rw [← hμ, sum_sub_sq, hsum]
  rw [div_le_iff₀ hmpos]
  nlinarith [sq_nonneg (2 * μ - 1)]

lemma consistency_eq_one (l : List Attempt) (hne : l ≠ [])
    (hacc : ∀ a ∈ l, accuracy a = 1) : consistency l = 1 := by
  have hone : ∀ v ∈ recentAccuracies l, v = 1 := by
    intro v hv
    obtain ⟨a, ha, rfl⟩ := mem_recentAccuracies l v hv
    exact hacc a ha
  have hv0 : listVar (recentAccuracies l) = 0 :=
    listVar_all_one _ (recentAccuracies_ne_nil l hne) hone
  unfold consistency
  rw [hv0]
  simp

lemma consistency_bounds (l : List Attempt) (hne : l ≠ [])
    (hacc : ∀ a ∈ l, a.correct ≤ a.total) :
    1 / 2 ≤ consistency l ∧ consistency l ≤ 1 := by
  have hrange : ∀ v ∈ recentAccuracies l, 0 ≤ v ∧ v ≤ 1 := by
    intro v hv
    obtain ⟨a, ha, rfl⟩ := mem_recentAccuracies l v hv
    exact ⟨accuracy_nonneg a, accuracy_le_one a (hacc a ha)⟩
  have hv0 : (0 : ℚ) ≤ listVar (recentAccuracies l) := listVar_nonneg _
  have hv4 : listVar (recentAccuracies l) ≤ 1 / 4 :=
    listVar_le_quarter _ (recentAccuracies_ne_nil l hne) hrange
  have hsq14 : Real.sqrt (1 / 4) = 1 / 2 := by
    rw [show (1 : ℝ) / 4 = (1 / 2) ^ 2 by norm_num]
    exact Real.sqrt_sq (by norm_num)
  constructor
  · have hle : Real.sqrt ((listVar (recentAccuracies l) : ℚ) : ℝ) ≤ Real.sqrt (1 / 4) := by
      apply Real.sqrt_le_sqrt
      have h2 : ((listVar (recentAccuracies l) : ℚ) : ℝ) ≤ ((1 / 4 : ℚ) : ℝ) :=
        Rat.cast_le.mpr hv4
      norm_num at h2
      exact h2
    rw [hsq14] at hle
    unfold consistency
    linarith
  · have hge : (0 : ℝ) ≤ Real.sqrt ((listVar (recentAccuracies l) : ℚ) : ℝ) :=
      Real.sqrt_nonneg _
    unfold consistency
    linarith

lemma masteryLevel_all_one (l : List Attempt) (hne : l ≠ [])
    (hall : ∀ a ∈ l, 0 < a.total ∧ a.correct = a.total) :
    masteryLevel l = ⌊(131 : ℝ) / 2 + 35 / (l.length : ℝ)⌋ := by
  have hacc : ∀ a ∈ l, accuracy a = 1 := fun a ha =>
    accuracy_eq_one a (hall a ha).1 (hall a ha).2
  have hws : weightedScore l = ((l.length : ℚ) + 1) / (2 * (l.length : ℚ)) :=
    weightedScore_all_one l hne hacc
  have hcons : consistency l = 1 := consistency_eq_one l hne hacc
  have hm : ((l.length : ℝ)) ≠ 0 :=
    Nat.cast_ne_zero.mpr (List.length_pos.mpr hne).ne'
  unfold masteryLevel jsRound
  rw [hws, hcons]
  congr 1
  push_cast
  field_simp
  ring

lemma masteryLevel_bounds (l : List Attempt) (hne : l ≠ [])
    (hacc : ∀ a ∈ l, a.correct ≤ a.total) :
    15 ≤ masteryLevel l ∧ masteryLevel l ≤ 100 := by
  have haccq : ∀ a ∈ l, 0 ≤ accuracy a := fun a _ => accuracy_nonneg a
  have haccq1 : ∀ a ∈ l, accuracy a ≤ 1 := fun a ha => accuracy_le_one a (hacc a ha)
  have hws0 : (0 : ℚ) ≤ weightedScore l := weightedScore_nonneg l haccq
  have hws1 : weightedScore l ≤ 1 := weightedScore_le_one l hne haccq1
  have hcons := consistency_bounds l hne hacc
  have hwsr0 : (0 : ℝ) ≤ ((weightedScore l : ℚ) : ℝ) := by exact_mod_cast hws0
  have hwsr1 : ((weightedScore l : ℚ) : ℝ) ≤ 1 := by exact_mod_cast hws1
  unfold masteryLevel jsRound
  constructor
  · apply Int.le_floor.mpr
    push_cast
    nlinarith [hcons.1]
  · have hub : (((weightedScore l : ℚ) : ℝ) * (7 / 10) + consistency l * (3 / 10)) * 100
        + 1 / 2 ≤ 201 / 2 := by nlinarith [hcons.2]
    calc ⌊(((weightedScore l : ℚ) : ℝ) * (7 / 10) + consistency l * (3 / 10)) * 100 + 1 / 2⌋
        ≤ ⌊(201 : ℝ) / 2⌋ := Int.floor_le_floor hub
      _ = 100 := by
          apply Int.floor_eq_iff.mpr
          constructor <;> norm_num

lemma statusOf_ne_mastered (lv : ℤ) (h : lv < 90) : statusOf lv ≠ "mastered" := by
  unfold statusOf
  rw [if_neg (by omega)]
  split_ifs <;> decide

lemma statusOf_ne_not_started (lv : ℤ) : statusOf lv ≠ "not-started" := by
  unfold statusOf
  split_ifs <;> decide

lemma mem_insertByCompare {α : Type} (c : α → α → ℚ) (x y : α) (l : List α) :
    y ∈ insertByCompare c x l ↔ y = x ∨ y ∈ l := by
  induction l with
  | nil => simp [insertByCompare]
  | cons h t ih =>
    unfold insertByCompare
    split_ifs with hc
    case pos =>
      rw [List.mem_cons, ih, List.mem_cons]
      tauto
    case neg => exact List.mem_cons

lemma mem_sortByCompare {α : Type} (c : α → α → ℚ) (l : List α) (y : α) :
    y ∈ sortByCompare c l ↔ y ∈ l := by
  have haux : ∀ (l acc : List α),
      (y ∈ l.foldl (fun acc x => insertByCompare c x acc) acc ↔ y ∈ acc ∨ y ∈ l) := by
    intro l
    induction l with
    | nil => intro acc; simp
    | cons h t ih =>
      intro acc
      simp only [List.foldl_cons, ih, mem_insertByCompare, List.mem_cons]
      tauto
  unfold sortByCompare
  rw [haux]
  simp

lemma head?_mem {α : Type} {l : List α} {a : α} (h : l.head? = some a) : a ∈ l := by
  cases l with
  | nil => simp at h
  | cons x t =>
    simp at h
    simp [h]

lemma alookup_mem {α : Type} {l : List (String × α)} {k : String} {v : α}
    (h : alookup l k = some v) : (k, v) ∈ l := by
  induction l with
  | nil => simp [alookup] at h
  | cons e t ih =>
    obtain ⟨k', v'⟩ := e
    unfold alookup at h
    split_ifs at h with he
    · injection h with h2
      subst h2
      subst he
      exact List.mem_cons_self _ _
    · exact List.mem_cons_of_mem _ (ih h)

lemma not_contained_level_lt (progress : List (String × TopicProgress)) (topic : String)
    (h : (masteredTopics progress).contains topic = false) :
    (currentMasteryOf progress topic).1 < 70 := by
  unfold currentMasteryOf
  cases halk : alookup progress topic with
  | none => simp
  | some d =>
    simp only
    by_contra hge
    push_neg at hge
    have hmem : (topic, d) ∈ progress := alookup_mem halk
    have hfil : (topic, d) ∈ progress.filter
        fun e => decide (70 ≤ (calculateMasteryLevel e.2.attempts).level) := by
      rw [List.mem_filter]
      exact ⟨hmem, by simpa using hge⟩
    have htop : topic ∈ masteredTopics progress := by
      unfold masteredTopics
      exact List.mem_map.mpr ⟨(topic, d), hfil, rfl⟩
    have hc : (masteredTopics progress).contains topic = true := by simpa using htop
    rw [hc] at h
    simp at h

lemma insertByKey_append_le {α : Type} (key : α → ℕ) (x : α) (A r : List α)
    (hA : ∀ a ∈ A, key a ≤ key x) :
    insertByKey key x (A ++ r) = A ++ insertByKey key x r := by
  induction A with
  | nil => simp
  | cons h t ih =>
    have hh := hA h (by simp)
    simp only [List.cons_append, insertByKey, List.append_eq]
    rw [if_pos hh, ih (fun a ha => hA a (by simp [ha]))]

lemma insertByKey_lt {α : Type} (key : α → ℕ) (x : α) (r : List α)
    (hr : ∀ a ∈ r, key x < key a) : insertByKey key x r = x :: r := by
  cases r with
  | nil => rfl
  | cons h t =>
    have hh := hr h (by simp)
    unfold insertByKey
    rw [if_neg (by omega)]

lemma sortByKey_append_singleton {α : Type} (key : α → ℕ) (l : List α) (x : α) :
    sortByKey key (l ++ [x]) = insertByKey key x (sortByKey key l) := by
  unfold sortByKey
  rw [List.foldl_append]
  rfl

/-- Appending after a block whose keys are all at most key x. -/
lemma insertByKey_all_le {α : Type} (key : α → ℕ) (x : α) (r : List α)
    (hr : ∀ a ∈ r, key a ≤ key x) : insertByKey key x r = r ++ [x] := by
  induction r with
  | nil => rfl
  | cons h t ih =>
    have hh := hr h (by simp)
    simp only [insertByKey]
    rw [if_pos hh, ih (fun a ha => hr a (by simp [ha]))]
    rfl

/-- Stable sort by a three-valued key is the concatenation of the
key-0, key-1 and key-2 sublists in original order: sortedness plus
in-tier stability in one equation. -/
lemma sortByKey_tiers {α : Type} (key : α → ℕ) (l : List α)
    (hk : ∀ a ∈ l, key a ≤ 2) :
    sortByKey key l = l.filter (fun a => key a == 0) ++
      l.filter (fun a => key a == 1) ++ l.filter (fun a => key a == 2) := by
  induction l using List.reverseRecOn with
  | nil => rfl
  | append_singleton t x ih =>
    have hkt : ∀ a ∈ t, key a ≤ 2 := fun a ha => hk a (by simp [ha])
    have hkx : key x ≤ 2 := hk x (by simp)
    have hf0 : ∀ a ∈ t.filter (fun a => key a == 0), key a = 0 := by
      intro a ha
      simpa using (List.mem_filter.mp ha).2
    have hf1 : ∀ a ∈ t.filter (fun a => key a == 1), key a = 1 := by
      intro a ha
      simpa using (List.mem_filter.mp ha).2
    have hf2 : ∀ a ∈ t.filter (fun a => key a == 2), key a = 2 := by
      intro a ha
      simpa using (List.mem_filter.mp ha).2
    rw [sortByKey_append_singleton, ih hkt, List.append_assoc]
    rcases Nat.lt_or_ge (key x) 1 with h0 | h1
    · have hx0 : key x = 0 := by omega
      rw [insertByKey_append_le key x _ _ (by intro a ha; rw [hf0 a ha]; omega)]
      rw [insertByKey_lt key x _ (by
        intro a ha
        rcases List.mem_append.mp ha with h | h
        · rw [hf1 a h]; omega
        · rw [hf2 a h]; omega)]
      simp [List.filter_append, hx0, List.append_assoc, List.singleton_append]
    rcases Nat.lt_or_ge (key x) 2 with h2 | h12
    · have hx1 : key x = 1 := by omega
      rw [insertByKey_append_le key x _ _ (by intro a ha; rw [hf0 a ha]; omega)]
      rw [insertByKey_append_le key x _ _ (by intro a ha; rw [hf1 a ha]; omega)]
      rw [insertByKey_lt key x _ (by intro a ha; rw [hf2 a ha]; omega)]
      simp [List.filter_append, hx1, List.append_assoc, List.singleton_append]
    · have hx2 : key x = 2 := by omega
      rw [insertByKey_append_le key x _ _ (by intro a ha; rw [hf0 a ha]; omega)]
      rw [insertByKey_append_le key x _ _ (by intro a ha; rw [hf1 a ha]; omega)]
      rw [insertByKey_all_le key x _ (by intro a ha; rw [hf2 a ha]; omega)]
      simp [List.filter_append, hx2, List.append_assoc, List.singleton_append]

lemma optTraverse_isSome {α β : Type} (f : α → Option β) (l : List α)
    (h : ∀ a ∈ l, (f a).isSome) :
    ∃ r, optTraverse f l = some r ∧ r.length = l.length := by
  induction l with
  | nil => exact ⟨[], rfl, rfl⟩
  | cons a t ih =>
    obtain ⟨b, hb⟩ := Option.isSome_iff_exists.mp (h a (by simp))
    obtain ⟨r, hr, hrl⟩ := ih fun a ha => h a (by simp [ha])
    refine ⟨b :: r, ?_, by simp [hrl]⟩
    unfold optTraverse
    rw [hb, hr]

lemma calculateMasteryLevel_of_ne_nil (l : List Attempt) (hne : l ≠ []) :
    calculateMasteryLevel l =
      { level := masteryLevel l,
        status := statusOf (masteryLevel l),
        confidence := consistency l,
        totalAttempts := some l.length,
        recentAccuracy := some (listAvg (recentAccuracies l)) } := by
  unfold calculateMasteryLevel
  rw [if_neg (by simp [hne])]

lemma buildPhases_length (ct : List String) (tf tpp pc : ℕ) :
    (buildPhases ct tf tpp pc).length = pc := by
  simp [buildPhases]

lemma buildDay_isSome (phases : List Phase) (tf pc dt day : ℕ) (hpc : 0 < pc)
    (hlen : pc ≤ phases.length) (h1 : 1 ≤ day) (h2 : day ≤ tf) :
    (buildDay phases tf pc dt day).isSome := by
  have htf : 0 < tf := by omega
  have hidx : dayPhaseIdx tf pc day < phases.length := by
    unfold dayPhaseIdx
    rw [if_neg (by omega)]
    have hd : day - 1 < tf := by omega
    have hlt : (day - 1) * pc < tf * pc := (Nat.mul_lt_mul_right hpc).mpr hd
    have := Nat.div_lt_of_lt_mul hlt
    omega
  unfold buildDay
  rw [List.getElem?_eq_getElem hidx]
  rfl

lemma schedule_all (phases : List Phase) (tf pc dt : ℕ) (hpc : 0 < pc)
    (hlen : pc ≤ phases.length) :
    ∃ r, optTraverse (fun d => buildDay phases tf pc dt (d + 1)) (List.range tf) = some r ∧
      r.length = tf := by
  obtain ⟨r, hr, hl⟩ := optTraverse_isSome (fun d => buildDay phases tf pc dt (d + 1))
    (List.range tf) (fun d hd => by
      have hdlt : d < tf := List.mem_range.mp hd
      exact buildDay_isSome phases tf pc dt (d + 1) hpc hlen (by omega) (by omega))
  exact ⟨r, hr, by simpa using hl⟩

lemma severityOrder_le_two (s : String) : severityOrder s ≤ 2 := by
  unfold severityOrder
  split_ifs <;> omega

lemma gapsOf_severity (rs : List AssessmentResult) :
    ∀ g ∈ gapsOf rs, g.severity = "critical" ∨ g.severity = "high" ∨
      g.severity = "medium" := by
  intro g hg
  unfold gapsOf at hg
  obtain ⟨e, _, hfe⟩ := List.mem_filterMap.mp hg
  split_ifs at hfe with h1 h2 h3
  · left
    rw [← Option.some.inj hfe]
  · right
    left
    rw [← Option.some.inj hfe]
  · right
    right
    rw [← Option.some.inj hfe]

/-- Claim C1, amended.  For every attempt sequence of length at least 2
in which every attempt has correct = total (and positive total), the
consistency (confidence) does equal 1, but the resulting level is
strictly below 90 (it equals floor(65.5 + 35/n), at most 83), so the
status is never "mastered". -/
theorem C1_perfect_attempts_confidence_one_level_below_90 (l : List Attempt)
    (h2 : 2 ≤ l.length) (hall : ∀ a ∈ l, 0 < a.total ∧ a.correct = a.total) :
    (calculateMasteryLevel l).confidence = 1 ∧
    (calculateMasteryLevel l).level < 90 ∧
    (calculateMasteryLevel l).status ≠ "mastered" := by
  have hne : l ≠ [] := by
    intro h
    rw [h] at h2
    simp at h2
  have hacc : ∀ a ∈ l, accuracy a = 1 := fun a ha =>
    accuracy_eq_one a (hall a ha).1 (hall a ha).2
  have hm2 : (2 : ℝ) ≤ (l.length : ℝ) := by exact_mod_cast h2
  have hlev : masteryLevel l ≤ 83 := by
    rw [masteryLevel_all_one l hne hall]
    have harg : (131 : ℝ) / 2 + 35 / (l.length : ℝ) ≤ 83 := by
      have hmpos : (0 : ℝ) < (l.length : ℝ) := by linarith
      have h35 : (35 : ℝ) / (l.length : ℝ) ≤ 35 / 2 := by
        rw [div_le_div_iff₀ hmpos (by norm_num : (0 : ℝ) < 2)]
        nlinarith
      linarith
    calc ⌊(131 : ℝ) / 2 + 35 / (l.length : ℝ)⌋ ≤ ⌊(83 : ℝ)⌋ := Int.floor_le_floor harg
      _ = 83 := by norm_num
  simp only [calculateMasteryLevel_of_ne_nil l hne]
  refine ⟨consistency_eq_one l hne hacc, by omega, ?_⟩
  exact statusOf_ne_mastered _ (by omega)

/-- Claim C1, counterexample.  The spec example
attempts = [(2,2), (3,3), (4,4)] yields level 77 and status
"proficient", not "mastered". -/
theorem C1_example_is_proficient :
    (calculateMasteryLevel [⟨2, 2, 0⟩, ⟨3, 3, 0⟩, ⟨4, 4, 0⟩]).level = 77 ∧
    (calculateMasteryLevel [⟨2, 2, 0⟩, ⟨3, 3, 0⟩, ⟨4, 4, 0⟩]).status = "proficient" := by
  have hne : ([⟨2, 2, 0⟩, ⟨3, 3, 0⟩, ⟨4, 4, 0⟩] : List Attempt) ≠ [] := by simp
  have hall : ∀ a ∈ ([⟨2, 2, 0⟩, ⟨3, 3, 0⟩, ⟨4, 4, 0⟩] : List Attempt),
      0 < a.total ∧ a.correct = a.total := by decide
  have hlev : masteryLevel [⟨2, 2, 0⟩, ⟨3, 3, 0⟩, ⟨4, 4, 0⟩] = 77 := by
    rw [masteryLevel_all_one _ hne hall]
    simp only [List.length_cons, List.length_nil]
    rw [show (131 : ℝ) / 2 + 35 / ((0 + 1 + 1 + 1 : ℕ) : ℝ) = 463 / 6 by push_cast; norm_num]
    norm_num [Int.floor_eq_iff]
  rw [calculateMasteryLevel_of_ne_nil _ hne]
  refine ⟨hlev, ?_⟩
  rw [hlev]
  decide

/-- Claim C1, witness at the spec example. -/
theorem C1_witness :
    (calculateMasteryLevel [⟨2, 2, 0⟩, ⟨3, 3, 0⟩, ⟨4, 4, 0⟩]).confidence = 1 ∧
    (calculateMasteryLevel [⟨2, 2, 0⟩, ⟨3, 3, 0⟩, ⟨4, 4, 0⟩]).level < 90 ∧
    (calculateMasteryLevel [⟨2, 2, 0⟩, ⟨3, 3, 0⟩, ⟨4, 4, 0⟩]).status ≠ "mastered" :=
  C1_perfect_attempts_confidence_one_level_below_90
    [⟨2, 2, 0⟩, ⟨3, 3, 0⟩, ⟨4, 4, 0⟩] (by decide) (by decide)

/-- Claim C8 (confirmed).  For every non-empty attempt sequence whose
attempts satisfy correct ≤ total and 0 < total, calculateMasteryLevel
returns a confidence in [1/2, 1] and a level in [15, 100]; in
particular the level is never 0 and the status never "not-started". -/
theorem C8_nonempty_mastery_bounds (l : List Attempt) (hne : l ≠ [])
    (hall : ∀ a ∈ l, a.correct ≤ a.total ∧ 0 < a.total) :
    (1 / 2 ≤ (calculateMasteryLevel l).confidence ∧
      (calculateMasteryLevel l).confidence ≤ 1) ∧
    (15 ≤ (calculateMasteryLevel l).level ∧ (calculateMasteryLevel l).level ≤ 100) ∧
    (calculateMasteryLevel l).level ≠ 0 ∧
    (calculateMasteryLevel l).status ≠ "not-started" := by
  have hacc : ∀ a ∈ l, a.correct ≤ a.total := fun a ha => (hall a ha).1
  have hc := consistency_bounds l hne hacc
  have hb := masteryLevel_bounds l hne hacc
  simp only [calculateMasteryLevel_of_ne_nil l hne]
  exact ⟨⟨hc.1, hc.2⟩, ⟨hb.1, hb.2⟩, by omega, statusOf_ne_not_started _⟩

/-- Claim C8, witness at the single half-correct attempt (1,2). -/
theorem C8_witness :
    (1 / 2 ≤ (calculateMasteryLevel [⟨1, 2, 0⟩]).confidence ∧
      (calculateMasteryLevel [⟨1, 2, 0⟩]).confidence ≤ 1) ∧
    (15 ≤ (calculateMasteryLevel [⟨1, 2, 0⟩]).level ∧
      (calculateMasteryLevel [⟨1, 2, 0⟩]).level ≤ 100) ∧
    (calculateMasteryLevel [⟨1, 2, 0⟩]).level ≠ 0 ∧
    (calculateMasteryLevel [⟨1, 2, 0⟩]).status ≠ "not-started" :=
  C8_nonempty_mastery_bounds [⟨1, 2, 0⟩] (by decide) (by decide)

/-- Claim C9 (confirmed).  On the empty sequence calculateMasteryLevel
returns a record without the totalAttempts and recentAccuracy fields
(modelled none), while on every non-empty sequence both fields are
present: totalAttempts is the sequence length and recentAccuracy is the
mean accuracy of the up-to-last-5 attempts. -/
theorem C9_optional_fields :
    (calculateMasteryLevel []).totalAttempts = none ∧
    (calculateMasteryLevel []).recentAccuracy = none ∧
    ∀ l : List Attempt, l ≠ [] →
      (calculateMasteryLevel l).totalAttempts = some l.length ∧
      (calculateMasteryLevel l).recentAccuracy = some (listAvg (recentAccuracies l)) := by
  refine ⟨rfl, rfl, fun l hne => ?_⟩
  rw [calculateMasteryLevel_of_ne_nil l hne]
  exact ⟨rfl, rfl⟩

/-- Claim C9, witness at a one-attempt sequence. -/
theorem C9_witness :
    (calculateMasteryLevel [⟨1, 2, 0⟩]).totalAttempts = some 1 ∧
    (calculateMasteryLevel [⟨1, 2, 0⟩]).recentAccuracy =
      some (listAvg (recentAccuracies [⟨1, 2, 0⟩])) := by
  have h := C9_optional_fields.2.2 [⟨1, 2, 0⟩] (by decide)
  simpa using h

/-- Claim C4, amended.  With weeks = 0 the division topicsMastered/weeks
is unguarded, so topicsPerWeek is the non-finite JS value (NaN when
nothing was mastered, Infinity otherwise; modelled none), not the
fallback 0; no exception is raised. -/
theorem C4_zero_weeks_not_finite (progress : List (String × TopicProgress)) (now : ℤ) :
    (calculateLearningVelocity progress 0 now).topicsPerWeek = none := by
  unfold calculateLearningVelocity jsDiv
  simp

/-- Claim C4, counterexample: at weeks = 0 the returned topicsPerWeek is
not the documented fallback 0 — it is the non-finite marker. -/
theorem C4_counterexample :
    (calculateLearningVelocity [] 0 0).topicsPerWeek ≠ some 0 ∧
    (calculateLearningVelocity [] 0 0).topicsPerWeek = none := by
  constructor <;> simp [calculateLearningVelocity, jsDiv, velocityCounts]

/-- Claim C7 (confirmed).  predictTimeToMastery returns 0 whenever the
topic's current mastery level is at least 70, and for every velocity
with topicsPerWeek > 0 and current mastery below 70 it returns an
integer in [1, 90]. -/
theorem C7_predict_time_range (topic : String)
    (progress : List (String × TopicProgress)) (tpw : ℚ) :
    (70 ≤ currentLevel progress topic →
      predictTimeToMastery topic progress tpw = 0) ∧
    (0 < tpw → currentLevel progress topic < 70 →
      1 ≤ predictTimeToMastery topic progress tpw ∧
      predictTimeToMastery topic progress tpw ≤ 90) := by
  unfold predictTimeToMastery
  constructor
  · intro h
    rw [if_pos (by omega)]
  · intro htpw hlt
    rw [if_neg (by omega)]
    have havg : (0 : ℚ) < tpw / 7 * 10 := by positivity
    rw [if_neg havg.ne']
    constructor
    · exact le_max_left _ _
    · exact max_le (by norm_num) (min_le_right _ _)

/-- Claim C7, witness at an unattempted topic and unit velocity. -/
theorem C7_witness :
    1 ≤ predictTimeToMastery "A" [] 1 ∧ predictTimeToMastery "A" [] 1 ≤ 90 :=
  (C7_predict_time_range "A" [] 1).2 (by decide) (by decide)

/-- Claim C5 (confirmed).  For the graph A (no prerequisites),
B (prerequisite A), and progress where A has 5 attempts each with
correct = total (positive) and B has none, getNextTopic recommends B:
A's level is 72 which meets the mastered threshold 70 of line 66,
unlocking B. -/
theorem C5_next_topic_is_B (as : List Attempt) (tsp : ℕ) (hlen : as.length = 5)
    (hall : ∀ a ∈ as, 0 < a.total ∧ a.correct = a.total) :
    (getNextTopic [("A", ⟨as, tsp⟩)]
      [("A", ⟨some [], none, none⟩), ("B", ⟨some ["A"], none, none⟩)]).map
      Recommendation.topic = some "B" := by
  have hne : as ≠ [] := by
    intro h
    rw [h] at hlen
    simp at hlen
  have hlev : masteryLevel as = 72 := by
    rw [masteryLevel_all_one as hne hall, hlen]
    rw [show (131 : ℝ) / 2 + 35 / ((5 : ℕ) : ℝ) = 145 / 2 by push_cast; norm_num]
    norm_num [Int.floor_eq_iff]
  have hcml : (calculateMasteryLevel as).level = 72 := by
    rw [calculateMasteryLevel_of_ne_nil as hne]
    exact hlev
  have hmast : masteredTopics [("A", (⟨as, tsp⟩ : TopicProgress))] = ["A"] := by
    unfold masteredTopics
    simp [hcml]
  unfold getNextTopic availableTopics
  rw [hmast]
  simp [alookup, currentMasteryOf, sortByCompare, insertByCompare,
    difficultyOrDefault, importanceOrDefault, List.filterMap_cons]

/-- Claim C5, witness with five perfect attempts of varying totals. -/
theorem C5_witness :
    (getNextTopic
      [("A", ⟨[⟨2, 2, 0⟩, ⟨3, 3, 1⟩, ⟨4, 4, 2⟩, ⟨5, 5, 3⟩, ⟨6, 6, 4⟩], 0⟩)]
      [("A", ⟨some [], none, none⟩), ("B", ⟨some ["A"], none, none⟩)]).map
      Recommendation.topic = some "B" :=
  C5_next_topic_is_B [⟨2, 2, 0⟩, ⟨3, 3, 1⟩, ⟨4, 4, 2⟩, ⟨5, 5, 3⟩, ⟨6, 6, 4⟩] 0
    (by decide) (by decide)

/-- Claim C10 (confirmed).  Whenever getNextTopic returns a
recommendation, its topic is a key of the curriculum graph and its
currentMastery is strictly below 70. -/
theorem C10_recommendation_available (progress : List (String × TopicProgress))
    (graph : List (String × TopicData)) (r : Recommendation)
    (h : getNextTopic progress graph = some r) :
    r.topic ∈ graph.map Prod.fst ∧ r.currentMastery < 70 := by
  unfold getNextTopic at h
  have hmem : r ∈ sortByCompare recCompare (availableTopics progress graph) :=
    head?_mem h
  rw [mem_sortByCompare] at hmem
  unfold availableTopics at hmem
  obtain ⟨e, he, hfe⟩ := List.mem_filterMap.mp hmem
  by_cases hc : ((e.2.prerequisites.getD []).all
      (fun p => (masteredTopics progress).contains p)
      && !((masteredTopics progress).contains e.1)) = true
  · rw [if_pos hc] at hfe
    have hr := Option.some.inj hfe
    have hcont : (masteredTopics progress).contains e.1 = false := by
      have h2 := (Bool.and_eq_true _ _).mp hc |>.2
      simpa using h2
    constructor
    · rw [← hr]
      exact List.mem_map.mpr ⟨e, he, rfl⟩
    · rw [← hr]
      exact not_contained_level_lt progress e.1 hcont
  · rw [if_neg hc] at hfe
    exact absurd hfe (by simp)

/-- Claim C10, witness: a one-node graph with empty progress yields the
recommendation for "A" with mastery 0. -/
theorem C10_witness :
    (⟨"A", "medium", 5, 0, "not-started"⟩ : Recommendation).topic ∈
      ([("A", (⟨some [], some "medium", some 5⟩ : TopicData))].map Prod.fst) ∧
    (⟨"A", "medium", 5, 0, "not-started"⟩ : Recommendation).currentMastery < 70 :=
  C10_recommendation_available [] [("A", ⟨some [], some "medium", some 5⟩)]
    ⟨"A", "medium", 5, 0, "not-started"⟩ (by rfl)

/-- Claim C2, amended.  With exactly 5 target topics, topicsPerPhase is
ceil(5/4) = 2 and the phase count is ceil(5/2) = 3 (not ceil(5/4) = 2);
for any positive timeframe the daily schedule has exactly
timeframe-many entries. -/
theorem C2_five_topics_three_phases (ps : PathParams)
    (h5 : ps.targetTopics.length = 5) (_htf : 0 < ps.timeframe) :
    ∃ p, generateLearningPath ps = some p ∧ p.phases.length = 3 ∧
      p.dailySchedule.length = ps.timeframe := by
  have htop : pathTopics ps = ps.targetTopics := by
    unfold pathTopics
    rw [if_pos (by omega)]
  have hn : (pathTopics ps).length = 5 := by rw [htop, h5]
  have htpp : pathTopicsPerPhase 5 = 2 := by decide
  have hpc : pathPhaseCount 5 = 3 := by decide
  obtain ⟨r, hr, hl⟩ := schedule_all
    (buildPhases (pathTopics ps) ps.timeframe 2 3) ps.timeframe 3
    ps.dailyTimeAvailable (by norm_num)
    (by rw [buildPhases_length])
  refine ⟨⟨buildPhases (pathTopics ps) ps.timeframe 2 3, ps.timeframe, r⟩, ?_, ?_, hl⟩
  · unfold generateLearningPath
    rw [hn, htpp, hpc, hr]
    rfl
  · simp [buildPhases_length]

/-- Claim C2, counterexample.  At five concrete target topics the path
has 3 phases, refuting the claimed ceil(5/4) = 2. -/
theorem C2_counterexample :
    (generateLearningPath ⟨[], [], ["t1", "t2", "t3", "t4", "t5"], 30, 30⟩).map
      (fun p => p.phases.length) = some 3 ∧
    (generateLearningPath ⟨[], [], ["t1", "t2", "t3", "t4", "t5"], 30, 30⟩).map
      (fun p => p.phases.length) ≠ some 2 := by
  have h3 : (generateLearningPath ⟨[], [], ["t1", "t2", "t3", "t4", "t5"], 30, 30⟩).map
      (fun p => p.phases.length) = some 3 := rfl
  refine ⟨h3, ?_⟩
  rw [h3]
  decide

/-- Claim C2, witness at a concrete parameter record. -/
theorem C2_witness :
    ∃ p, generateLearningPath ⟨[], [], ["a", "b", "c", "d", "e"], 7, 10⟩ = some p ∧
      p.phases.length = 3 ∧ p.dailySchedule.length = 7 :=
  C2_five_topics_three_phases ⟨[], [], ["a", "b", "c", "d", "e"], 7, 10⟩
    (by decide) (by decide)

/-- Claim C3, violated by the code.  With empty targetTopics and a
Topic Selector that returns none, the topic list is empty, the phase
count is ceil(0/1) = 0, the phase list is empty, and the first
iteration of the daily-schedule loop dereferences .topics of undefined
(phases[0] and phases[-1] are both undefined): the call throws a
TypeError (modelled none) instead of returning a path with at least one
phase. -/
theorem C3_empty_topics_throws :
    generateLearningPath ⟨[], [], [], 30, 30⟩ = none := rfl

/-- Claim C6 (confirmed).  For every batch of assessment results the
gap list is the critical gaps, then the high gaps, then the medium
gaps, each tier keeping the original topic-encounter order (the stable
sort equation); and whenever the merged per-topic tally for "fractions"
is 2 correct out of 10, the output contains a gap for "fractions" with
severity "critical" and accuracy 20. -/
theorem C6_gaps_sorted_with_fractions_critical (rs : List AssessmentResult) :
    identifyLearningGaps rs =
      (gapsOf rs).filter (fun g => g.severity == "critical") ++
      (gapsOf rs).filter (fun g => g.severity == "high") ++
      (gapsOf rs).filter (fun g => g.severity == "medium") ∧
    (((alookup (aggregate rs) "fractions").map fun p => (p.correct, p.total)) =
        some (2, 10) →
      ∃ g ∈ identifyLearningGaps rs, g.topic = "fractions" ∧
        g.severity = "critical" ∧ g.accuracy = 20) := by
  have hcritEq : ∀ g ∈ gapsOf rs,
      (severityOrder g.severity == 0) = (g.severity == "critical") := by
    intro g hg
    rcases gapsOf_severity rs g hg with h | h | h <;> rw [h] <;> decide
  have hhighEq : ∀ g ∈ gapsOf rs,
      (severityOrder g.severity == 1) = (g.severity == "high") := by
    intro g hg
    rcases gapsOf_severity rs g hg with h | h | h <;> rw [h] <;> decide
  have hmedEq : ∀ g ∈ gapsOf rs,
      (severityOrder g.severity == 2) = (g.severity == "medium") := by
    intro g hg
    rcases gapsOf_severity rs g hg with h | h | h <;> rw [h] <;> decide
  have hsorted : identifyLearningGaps rs =
      (gapsOf rs).filter (fun g => g.severity == "critical") ++
      (gapsOf rs).filter (fun g => g.severity == "high") ++
      (gapsOf rs).filter (fun g => g.severity == "medium") := by
    unfold identifyLearningGaps
    rw [sortByKey_tiers (fun g => severityOrder g.severity) (gapsOf rs)
      (fun g _ => severityOrder_le_two g.severity)]
    rw [List.filter_congr hcritEq, List.filter_congr hhighEq, List.filter_congr hmedEq]
  refine ⟨hsorted, fun hagg => ?_⟩
  obtain ⟨p, halk, hpc⟩ := Option.map_eq_some'.mp hagg
  have hc2 : p.correct = 2 := by
    have h := congrArg Prod.fst hpc
    simpa using h
  have ht10 : p.total = 10 := by
    have h := congrArg Prod.snd hpc
    simpa using h
  have hmemagg : ("fractions", p) ∈ aggregate rs := alookup_mem halk
  have hga : gapAccuracy p = 1 / 5 := by
    unfold gapAccuracy
    rw [hc2, ht10]
    norm_num
  have hg0 : ({ topic := "fractions", severity := "critical", accuracy := 20,
                totalQuestions := 10, incorrectCount := 8,
                commonErrors := p.errors.take 3,
                recommendation := getRecommendation "fractions" (1 / 5) } : Gap) ∈
      gapsOf rs := by
    unfold gapsOf
    apply List.mem_filterMap.mpr
    refine ⟨("fractions", p), hmemagg, ?_⟩
    simp only [hga, hc2, ht10]
    rw [if_pos (by norm_num), if_pos (by norm_num)]
    rw [show jsRoundQ ((1 : ℚ) / 5 * 100) = 20 by norm_num [jsRoundQ, Int.floor_eq_iff]]
  refine ⟨{ topic := "fractions", severity := "critical", accuracy := 20,
            totalQuestions := 10, incorrectCount := 8,
            commonErrors := p.errors.take 3,
            recommendation := getRecommendation "fractions" (1 / 5) }, ?_, rfl, rfl, rfl⟩
  rw [hsorted]
  apply List.mem_append.mpr
  left
  apply List.mem_append.mpr
  left
  exact List.mem_filter.mpr ⟨hg0, rfl⟩

/-- Claim C6, witness: a two-result batch whose merged tally for
"fractions" is 2 of 10. -/
theorem C6_witness :
    ∃ g ∈ identifyLearningGaps
      [⟨some [⟨some "fractions", true, "q1", "a", "a"⟩,
        ⟨some "fractions", false, "q2", "b", "c"⟩,
        ⟨some "fractions", false, "q3", "b", "c"⟩,
        ⟨some "fractions", false, "q4", "b", "c"⟩,
        ⟨some "fractions", false, "q5", "b", "c"⟩]⟩,
       ⟨some [⟨some "fractions", true, "q6", "a", "a"⟩,
        ⟨some "fractions", false, "q7", "b", "c"⟩,
        ⟨some "fractions", false, "q8", "b", "c"⟩,
        ⟨some "fractions", false, "q9", "b", "c"⟩,
        ⟨some "fractions", false, "q10", "b", "c"⟩]⟩],
      g.topic = "fractions" ∧ g.severity = "critical" ∧ g.accuracy = 20 :=
  (C6_gaps_sorted_with_fractions_critical
    [⟨some [⟨some "fractions", true, "q1", "a", "a"⟩,
      ⟨some "fractions", false, "q2", "b", "c"⟩,
      ⟨some "fractions", false, "q3", "b", "c"⟩,
      ⟨some "fractions", false, "q4", "b", "c"⟩,
      ⟨some "fractions", false, "q5", "b", "c"⟩]⟩,
     ⟨some [⟨some "fractions", true, "q6", "a", "a"⟩,
      ⟨some "fractions", false, "q7", "b", "c"⟩,
      ⟨some "fractions", false, "q8", "b", "c"⟩,
      ⟨some "fractions", false, "q9", "b", "c"⟩,
      ⟨some "fractions", false, "q10", "b", "c"⟩]⟩]).2 (by decide)

end AdaptiveLearning

